import Mathlib

/-!
Verification of the variational Fourier features (VFF) notebook:
a shallow embedding of `FourierFeatures1D`, the `Kuu`/`Kuf` covariance
builders for the Matérn-1/2 and Matérn-3/2 kernels, the custom KL
divergence `gauss_kl_vff`, and the `VFFPosterior` conditional code paths
(fused and precompute-then-reuse), together with proofs of the claimed
properties.

Tensors are embedded as real matrices (`Matrix (Fin n) (Fin m) ℝ`), the
TensorFlow `LinearOperator` solve as multiplication by the Mathlib matrix
inverse, and raised Python exceptions as `Except` errors.  The notebook's
single-latent setting (`q_mu` with one column, 3-D `q_sqrt` with leading
dimension 1) is embedded by a one-column mean matrix and an explicit
leading-dimension-tagged argument for `q_sqrt`.
-/

namespace VFF

open Matrix

/-! ## Errors raised by the notebook code -/

/-- The exceptions the notebook code can raise: `NotImplementedError`,
`ValueError` (with its message), and a failed `assert`. -/
inductive VffError where
  | notImplementedError : VffError
  | valueError (msg : String) : VffError
  | assertionError : VffError
deriving DecidableEq

/-- Shape-tagged embedding of the `q_sqrt` argument of
`VFFPosterior._conditional_fused`: `None`, a 2-D tensor, a 3-D tensor with
leading dimension `lead` (one `n × n` matrix per latent function), or a
tensor with any other number of dimensions. -/
inductive QSqrtArg (n : ℕ) where
  | qnone : QSqrtArg n
  | q2 (L : Matrix (Fin n) (Fin n) ℝ) : QSqrtArg n
  | q3 (lead : ℕ) (mats : Fin lead → Matrix (Fin n) (Fin n) ℝ) : QSqrtArg n
  | qother (ndims : ℕ) : QSqrtArg n

/-- `true` exactly when the result is a raised `ValueError`. -/
def isValueError {α : Type} : Except VffError α → Bool
  | .error (.valueError _) => true
  | _ => false

/-! ## The inducing-variable descriptor -/

/-- `FourierFeatures1D(a, b, M)`: interval boundaries `a`, `b` and the
number of frequencies `M` (the trainable-parameter and dtype plumbing of
the host framework is dropped; `ms = np.arange(M)` is embedded as
`Fin M`). -/
structure FourierFeatures1D where
  a : ℝ
  b : ℝ
  M : ℕ

/-- `FourierFeatures1D.num_inducing`: `2 * self.M - 1` (a Python `int`,
embedded in `ℤ`). -/
def FourierFeatures1D.num_inducing (u : FourierFeatures1D) : ℤ :=
  2 * u.M - 1

/-- `FourierFeatures1D.shape`: `(2 * self.M - 1, 1, 1)`. -/
def FourierFeatures1D.shape (u : FourierFeatures1D) : ℤ × ℤ × ℤ :=
  (2 * u.M - 1, 1, 1)

/-! ## The covariance builders -/

/-- `omegas = 2.0 * np.pi * ms / (b - a)`, the angular frequency of the
`m`-th Fourier feature. -/
noncomputable def omega (a b : ℝ) {M : ℕ} (m : Fin M) : ℝ :=
  2 * Real.pi * m / (b - a)

/-- `Kuu_matern12_fourierfeatures1d`: `lamb = 1.0 / kernel.lengthscales`. -/
noncomputable def lamb12 (ℓ : ℝ) : ℝ := 1 / ℓ

/-- `Kuu_matern32_fourierfeatures1d`: `lamb = np.sqrt(3.0) / kernel.lengthscales`. -/
noncomputable def lamb32 (ℓ : ℝ) : ℝ := Real.sqrt 3 / ℓ

/-- `two_or_four = tf.where(omegas == 0, 2.0, 4.0)` in
`Kuu_matern12_fourierfeatures1d`. -/
noncomputable def twoOrFour (a b : ℝ) {M : ℕ} (m : Fin M) : ℝ :=
  if omega a b m = 0 then 2 else 4

/-- `four_or_eight = tf.where(omegas == 0, 4.0, 8.0)` in
`Kuu_matern32_fourierfeatures1d`. -/
noncomputable def fourOrEight (a b : ℝ) {M : ℕ} (m : Fin M) : ℝ :=
  if omega a b m = 0 then 4 else 8

/-- The cosine-block diagonal of `Kuu_matern12_fourierfeatures1d`, eq. (111):
`d_cos = (b - a) * (lamb² + omegas²) / lamb / variance / two_or_four`. -/
noncomputable def dCos12 (a b ℓ σ2 : ℝ) {M : ℕ} (m : Fin M) : ℝ :=
  (b - a) * (lamb12 ℓ ^ 2 + omega a b m ^ 2) / lamb12 ℓ / σ2 / twoOrFour a b m

/-- The cosine-block rank-one vector of `Kuu_matern12_fourierfeatures1d`,
eq. (110): `v_cos = ones / sqrt(variance)` (constant over components). -/
noncomputable def vCos12 (σ2 : ℝ) : ℝ := 1 / Real.sqrt σ2

/-- The sine-block diagonal of `Kuu_matern12_fourierfeatures1d`, eq. (113)
(applied to the frequencies with `omega ≠ 0`):
`d_sin = (b - a) * (lamb² + omegas²) / lamb / variance / 4`. -/
noncomputable def dSin12 (a b ℓ σ2 : ℝ) {M : ℕ} (m : Fin M) : ℝ :=
  (b - a) * (lamb12 ℓ ^ 2 + omega a b m ^ 2) / lamb12 ℓ / σ2 / 4

/-- The cosine-block diagonal of `Kuu_matern32_fourierfeatures1d`, eq. (114):
`d_cos = (b - a) * (lamb² + omegas²)² / lamb³ / variance / four_or_eight`. -/
noncomputable def dCos32 (a b ℓ σ2 : ℝ) {M : ℕ} (m : Fin M) : ℝ :=
  (b - a) * (lamb32 ℓ ^ 2 + omega a b m ^ 2) ^ 2 / lamb32 ℓ ^ 3 / σ2
    / fourOrEight a b m

/-- The cosine-block rank-one vector of `Kuu_matern32_fourierfeatures1d`:
`v_cos = ones / sqrt(variance)`. -/
noncomputable def vCos32 (σ2 : ℝ) : ℝ := 1 / Real.sqrt σ2

/-- The sine-block diagonal of `Kuu_matern32_fourierfeatures1d`, eq. (115):
`d_sin = (b - a) * (lamb² + omegas²)² / lamb³ / variance / 8`. -/
noncomputable def dSin32 (a b ℓ σ2 : ℝ) {M : ℕ} (m : Fin M) : ℝ :=
  (b - a) * (lamb32 ℓ ^ 2 + omega a b m ^ 2) ^ 2 / lamb32 ℓ ^ 3 / σ2 / 8

/-- The sine-block rank-one vector of `Kuu_matern32_fourierfeatures1d`:
`v_sin = omegas / lamb / sqrt(variance)`. -/
noncomputable def vSin32 (a b ℓ σ2 : ℝ) {M : ℕ} (m : Fin M) : ℝ :=
  omega a b m / lamb32 ℓ / Real.sqrt σ2

open Classical in
/-- The index set kept by `omegas[tf.not_equal(omegas, 0)]`: the
frequencies whose angular value is nonzero (the sine blocks exclude the
zero frequency). -/
noncomputable def sineIdx (a b : ℝ) (M : ℕ) : Finset (Fin M) :=
  Finset.univ.filter (fun m => omega a b m ≠ 0)

/-- Dense materialization of the rank-one update that
`tf.linalg.LinearOperatorLowRankUpdate(base, u)` adds to its base
operator: the matrix `u uᵀ`. -/
def rankOne {ι : Type} (v : ι → ℝ) : Matrix ι ι ℝ :=
  fun i j => v i * v j

/-- Dense materialization of the cosine block of
`Kuu_matern12_fourierfeatures1d`:
`LowRank(Diag(d_cos, is_positive_definite=True), v_cos[:, None])`. -/
noncomputable def cosBlock12 (a b ℓ σ2 : ℝ) (M : ℕ) :
    Matrix (Fin M) (Fin M) ℝ :=
  Matrix.diagonal (dCos12 a b ℓ σ2) + rankOne (fun _ => vCos12 σ2)

/-- Dense materialization of the sine block of
`Kuu_matern12_fourierfeatures1d`: `Diag(d_sin, is_positive_definite=True)`,
indexed by the nonzero frequencies. -/
noncomputable def sinBlock12 (a b ℓ σ2 : ℝ) (M : ℕ) :
    Matrix { m : Fin M // m ∈ sineIdx a b M } { m : Fin M // m ∈ sineIdx a b M } ℝ :=
  Matrix.diagonal (fun m => dSin12 a b ℓ σ2 m.1)

/-- Dense materialization of the `BlockDiag([cosine_block, sine_block])`
operator returned by `Kuu_matern12_fourierfeatures1d`. -/
noncomputable def Kuu_matern12_dense (a b ℓ σ2 : ℝ) (M : ℕ) :
    Matrix (Fin M ⊕ { m : Fin M // m ∈ sineIdx a b M })
      (Fin M ⊕ { m : Fin M // m ∈ sineIdx a b M }) ℝ :=
  Matrix.fromBlocks (cosBlock12 a b ℓ σ2 M) 0 0 (sinBlock12 a b ℓ σ2 M)

/-- Dense materialization of the cosine block of
`Kuu_matern32_fourierfeatures1d`. -/
noncomputable def cosBlock32 (a b ℓ σ2 : ℝ) (M : ℕ) :
    Matrix (Fin M) (Fin M) ℝ :=
  Matrix.diagonal (dCos32 a b ℓ σ2) + rankOne (fun _ => vCos32 σ2)

/-- Dense materialization of the sine block of
`Kuu_matern32_fourierfeatures1d`:
`LowRank(Diag(d_sin, is_positive_definite=True), v_sin[:, None])`. -/
noncomputable def sinBlock32 (a b ℓ σ2 : ℝ) (M : ℕ) :
    Matrix { m : Fin M // m ∈ sineIdx a b M } { m : Fin M // m ∈ sineIdx a b M } ℝ :=
  Matrix.diagonal (fun m => dSin32 a b ℓ σ2 m.1)
    + rankOne (fun m => vSin32 a b ℓ σ2 m.1)

/-- Dense materialization of the `BlockDiag([cosine_block, sine_block])`
operator returned by `Kuu_matern32_fourierfeatures1d`, eq. (116). -/
noncomputable def Kuu_matern32_dense (a b ℓ σ2 : ℝ) (M : ℕ) :
    Matrix (Fin M ⊕ { m : Fin M // m ∈ sineIdx a b M })
      (Fin M ⊕ { m : Fin M // m ∈ sineIdx a b M }) ℝ :=
  Matrix.fromBlocks (cosBlock32 a b ℓ σ2 M) 0 0 (sinBlock32 a b ℓ σ2 M)

/-! ## The cross-covariance builders (entrywise) -/

/-- Entry `(m, x)` of the cosine rows of `Kuf_matern12_fourierfeatures1d`:
`cos(omega * (x - a))`, overwritten by the left tail
`exp(-|x - a| / lengthscale)` for `x < a` and then by the right tail
`exp(-|x - b| / lengthscale)` for `x > b`. -/
noncomputable def Kuf_matern12_cos (a b ℓ : ℝ) {M : ℕ} (m : Fin M) (x : ℝ) : ℝ :=
  if b < x then Real.exp (-|x - b| / ℓ)
  else if x < a then Real.exp (-|x - a| / ℓ)
  else Real.cos (omega a b m * (x - a))

/-- Entry `(m, x)` of the sine rows of `Kuf_matern12_fourierfeatures1d`
(for the nonzero frequencies): `sin(omega * (x - a))`, zeroed outside
`[a, b]`. -/
noncomputable def Kuf_matern12_sin (a b : ℝ) {M : ℕ} (m : Fin M) (x : ℝ) : ℝ :=
  if x < a ∨ b < x then 0 else Real.sin (omega a b m * (x - a))

/-- `tail_cos(delta_X)` of `Kuf_matern32_fourierfeatures1d`:
`(1 + arg) * exp(-arg)` with `arg = sqrt(3) * |delta_X| / lengthscale`. -/
noncomputable def tail_cos32 (ℓ : ℝ) (d : ℝ) : ℝ :=
  (1 + Real.sqrt 3 * |d| / ℓ) * Real.exp (-(Real.sqrt 3 * |d| / ℓ))

/-- `tail_sin(delta_X)` of `Kuf_matern32_fourierfeatures1d`:
`delta_X * exp(-arg) * omegas` with `arg = sqrt(3) * |delta_X| / lengthscale`. -/
noncomputable def tail_sin32 (a b ℓ : ℝ) {M : ℕ} (m : Fin M) (d : ℝ) : ℝ :=
  d * Real.exp (-(Real.sqrt 3 * |d| / ℓ)) * omega a b m

/-- Entry `(m, x)` of the cosine rows of `Kuf_matern32_fourierfeatures1d`:
`cos(omega * (x - a))` inside `[a, b]`, `tail_cos(x - a)` for `x < a`,
`tail_cos(x - b)` for `x > b`. -/
noncomputable def Kuf_matern32_cos (a b ℓ : ℝ) {M : ℕ} (m : Fin M) (x : ℝ) : ℝ :=
  if b < x then tail_cos32 ℓ (x - b)
  else if x < a then tail_cos32 ℓ (x - a)
  else Real.cos (omega a b m * (x - a))

/-- Entry `(m, x)` of the sine rows of `Kuf_matern32_fourierfeatures1d`
(for the nonzero frequencies): `sin(omega * (x - a))` inside `[a, b]`,
`tail_sin(x - a)` for `x < a`, `tail_sin(x - b)` for `x > b`. -/
noncomputable def Kuf_matern32_sin (a b ℓ : ℝ) {M : ℕ} (m : Fin M) (x : ℝ) : ℝ :=
  if b < x then tail_sin32 a b ℓ m (x - b)
  else if x < a then tail_sin32 a b ℓ m (x - a)
  else Real.sin (omega a b m * (x - a))

/-! ## The KL divergence -/

/-- `tf.linalg.band_part(q_sqrt, -1, 0)`: force the lower triangle,
discarding strictly-upper entries. -/
def lowerTri {n : ℕ} (A : Matrix (Fin n) (Fin n) ℝ) : Matrix (Fin n) (Fin n) ℝ :=
  fun i j => if j ≤ i then A i j else 0

/-- `gauss_kl_vff(q_mu, q_sqrt, K)` in the notebook's single-latent
setting (`q_mu : [n, 1]`, `q_sqrt` the single `[n, n]` slice of the
`[1, n, n]` tensor).  `K.solve` is the exact inverse application,
`K.log_abs_determinant()` is `log |det K|`, `num_latent_gps = 1` and
`constant_term = 1 * n`. -/
noncomputable def gauss_kl_vff {n : ℕ} (q_mu : Matrix (Fin n) (Fin 1) ℝ)
    (q_sqrt K : Matrix (Fin n) (Fin n) ℝ) : ℝ :=
  let Kinv_q_mu := K⁻¹ * q_mu
  let mahalanobis_term := (q_muᵀ * Kinv_q_mu) 0 0
  let num_latent_gps : ℝ := 1
  let logdet_prior := num_latent_gps * Real.log |K.det|
  let constant_term : ℝ := (n : ℝ)
  let Lq := lowerTri q_sqrt
  let logdet_q := ∑ i, Real.log (Lq i i ^ 2)
  let trace_term := ∑ i, ∑ j, Lq i j * (K⁻¹ * Lq) i j
  0.5 * (trace_term + mahalanobis_term - constant_term + logdet_prior - logdet_q)

/-- The standard Gaussian KL divergence from `N(q_mu, S)` to `N(0, K)`
stated in the docstring of `gauss_kl_vff`:
`½ [tr(K⁻¹ S) + q_muᵀ K⁻¹ q_mu - n + ln det K - ln det S]`. -/
noncomputable def standardGaussianKL {n : ℕ} (q_mu : Matrix (Fin n) (Fin 1) ℝ)
    (S K : Matrix (Fin n) (Fin n) ℝ) : ℝ :=
  0.5 * (Matrix.trace (K⁻¹ * S) + (q_muᵀ * K⁻¹ * q_mu) 0 0 - (n : ℝ)
    + Real.log K.det - Real.log S.det)

/-- `prior_kl_vff`: raises `NotImplementedError` when `whiten` is
requested, otherwise delegates to `gauss_kl_vff` with the structured
prior covariance. -/
noncomputable def prior_kl_vff {n : ℕ} (whiten : Bool)
    (q_mu : Matrix (Fin n) (Fin 1) ℝ) (q_sqrt K : Matrix (Fin n) (Fin n) ℝ) :
    Except VffError ℝ :=
  if whiten then .error .notImplementedError
  else .ok (gauss_kl_vff q_mu q_sqrt K)

/-! ## The posterior code paths -/

/-- `VFFPosterior._conditional_fused` with `full_cov=True`.  `Kuu` is the
dense matrix represented by the structured operator, `Kuf` the
cross-covariance at the new points, `Knn = kernel(Xnew)`, `f = q_mu`.
Returns the posterior mean and full covariance, or the raised error. -/
noncomputable def conditionalFusedFull {n N : ℕ} (whiten full_output_cov : Bool)
    (Kuu : Matrix (Fin n) (Fin n) ℝ) (Kuf : Matrix (Fin n) (Fin N) ℝ)
    (Knn : Matrix (Fin N) (Fin N) ℝ) (f : Matrix (Fin n) (Fin 1) ℝ)
    (q_sqrt : QSqrtArg n) :
    Except VffError (Matrix (Fin N) (Fin 1) ℝ × Matrix (Fin N) (Fin N) ℝ) :=
  if full_output_cov then .error .notImplementedError else
  let KuuInv_Kuf := Kuu⁻¹ * Kuf
  let fvar0 := Knn - Kufᵀ * KuuInv_Kuf
  if whiten then .error .notImplementedError else
  let A := KuuInv_Kuf
  let fmean := Aᵀ * f
  match q_sqrt with
  | .qnone => .ok (fmean, fvar0)
  | .q2 _ => .error .notImplementedError
  | .q3 lead mats =>
      if h : lead = 1 then
        let ATL := Aᵀ * mats ⟨0, by omega⟩
        .ok (fmean, fvar0 + ATL * ATLᵀ)
      else .error .assertionError
  | .qother d =>
      .error (.valueError (String.append "Bad dimension for q_sqrt: " (toString d)))

/-- `VFFPosterior._conditional_fused` with `full_cov=False`: the explained
variance is the diagonal `reduce_sum(Kuf * KuuInv_Kuf, axis=-2)` and the
`q_sqrt` contribution is `reduce_sum(square(ATL), 2)`. -/
noncomputable def conditionalFusedDiag {n N : ℕ} (whiten full_output_cov : Bool)
    (Kuu : Matrix (Fin n) (Fin n) ℝ) (Kuf : Matrix (Fin n) (Fin N) ℝ)
    (knnDiag : Fin N → ℝ) (f : Matrix (Fin n) (Fin 1) ℝ)
    (q_sqrt : QSqrtArg n) :
    Except VffError (Matrix (Fin N) (Fin 1) ℝ × (Fin N → ℝ)) :=
  if full_output_cov then .error .notImplementedError else
  let KuuInv_Kuf := Kuu⁻¹ * Kuf
  let fvar0 : Fin N → ℝ := fun j => knnDiag j - ∑ i, Kuf i j * KuuInv_Kuf i j
  if whiten then .error .notImplementedError else
  let A := KuuInv_Kuf
  let fmean := Aᵀ * f
  match q_sqrt with
  | .qnone => .ok (fmean, fvar0)
  | .q2 _ => .error .notImplementedError
  | .q3 lead mats =>
      if h : lead = 1 then
        let ATL := Aᵀ * mats ⟨0, by omega⟩
        .ok (fmean, fun j => fvar0 j + ∑ k, ATL j k ^ 2)
      else .error .assertionError
  | .qother d =>
      .error (.valueError (String.append "Bad dimension for q_sqrt: " (toString d)))

/-- `VFFPosterior._precompute`: `alpha = Kuu⁻¹ q_mu` and
`Qinv = Kuu⁻¹ - (Kuu⁻¹ q_sqrt)(Kuu⁻¹ q_sqrt)ᵀ` (with `q_sqrt` the single
`[n, n]` slice), each guarded by the `whiten` check. -/
noncomputable def precompute {n : ℕ} (whiten : Bool)
    (Kuu : Matrix (Fin n) (Fin n) ℝ) (q_mu : Matrix (Fin n) (Fin 1) ℝ)
    (q_sqrt : Matrix (Fin n) (Fin n) ℝ) :
    Except VffError (Matrix (Fin n) (Fin 1) ℝ × Matrix (Fin n) (Fin n) ℝ) :=
  if whiten then .error .notImplementedError else
  let alpha := Kuu⁻¹ * q_mu
  if whiten then .error .notImplementedError else
  let KuuInv_qsqrt := Kuu⁻¹ * q_sqrt
  let KuuInv_covu_KuuInv := KuuInv_qsqrt * KuuInv_qsqrtᵀ
  let Qinv := Kuu⁻¹ - KuuInv_covu_KuuInv
  .ok (alpha, Qinv)

/-- `VFFPosterior._conditional_with_precompute` with `full_cov=True`. -/
noncomputable def conditionalWithPrecomputeFull {n N : ℕ} (full_output_cov : Bool)
    (alpha : Matrix (Fin n) (Fin 1) ℝ) (Qinv : Matrix (Fin n) (Fin n) ℝ)
    (Kuf : Matrix (Fin n) (Fin N) ℝ) (Knn : Matrix (Fin N) (Fin N) ℝ) :
    Except VffError (Matrix (Fin N) (Fin 1) ℝ × Matrix (Fin N) (Fin N) ℝ) :=
  if full_output_cov then .error .notImplementedError else
  let fmean := Kufᵀ * alpha
  let Qinv_Kuf := Qinv * Kuf
  .ok (fmean, Knn - Kufᵀ * Qinv_Kuf)

/-- `VFFPosterior._conditional_with_precompute` with `full_cov=False`. -/
noncomputable def conditionalWithPrecomputeDiag {n N : ℕ} (full_output_cov : Bool)
    (alpha : Matrix (Fin n) (Fin 1) ℝ) (Qinv : Matrix (Fin n) (Fin n) ℝ)
    (Kuf : Matrix (Fin n) (Fin N) ℝ) (knnDiag : Fin N → ℝ) :
    Except VffError (Matrix (Fin N) (Fin 1) ℝ × (Fin N → ℝ)) :=
  if full_output_cov then .error .notImplementedError else
  let fmean := Kufᵀ * alpha
  let Qinv_Kuf := Qinv * Kuf
  .ok (fmean, fun j => knnDiag j - ∑ i, Kuf i j * Qinv_Kuf i j)

/-- Modelled from the spec: the host framework's generic (non-structured)
conditional mean for a non-whitened variational posterior `N(f, L Lᵀ)`
over the inducing variables, `Kufᵀ Kuu⁻¹ f` (the framework's
`base_conditional` is not part of this repository fragment). -/
noncomputable def genericMean {n N : ℕ} (Kuu : Matrix (Fin n) (Fin n) ℝ)
    (Kuf : Matrix (Fin n) (Fin N) ℝ) (f : Matrix (Fin n) (Fin 1) ℝ) :
    Matrix (Fin N) (Fin 1) ℝ :=
  Kufᵀ * Kuu⁻¹ * f

/-- Modelled from the spec: the host framework's generic conditional full
covariance, `Knn - Kufᵀ Kuu⁻¹ Kuf + Kufᵀ Kuu⁻¹ (L Lᵀ) Kuu⁻¹ Kuf`. -/
noncomputable def genericVarFull {n N : ℕ} (Kuu : Matrix (Fin n) (Fin n) ℝ)
    (Kuf : Matrix (Fin n) (Fin N) ℝ) (Knn : Matrix (Fin N) (Fin N) ℝ)
    (L : Matrix (Fin n) (Fin n) ℝ) : Matrix (Fin N) (Fin N) ℝ :=
  Knn - Kufᵀ * (Kuu⁻¹ * Kuf)
    + Kufᵀ * (Kuu⁻¹ * (L * (Lᵀ * (Kuu⁻¹ * Kuf))))

/-- Modelled from the spec: the generic conditional marginal variances,
the diagonal of `genericVarFull` with the prior variances `knnDiag`. -/
noncomputable def genericVarDiag {n N : ℕ} (Kuu : Matrix (Fin n) (Fin n) ℝ)
    (Kuf : Matrix (Fin n) (Fin N) ℝ) (knnDiag : Fin N → ℝ)
    (L : Matrix (Fin n) (Fin n) ℝ) : Fin N → ℝ :=
  fun j => knnDiag j - (Kufᵀ * (Kuu⁻¹ * Kuf)) j j
    + (Kufᵀ * (Kuu⁻¹ * (L * (Lᵀ * (Kuu⁻¹ * Kuf))))) j j

/-! ## Helper lemmas -/

lemma omega_eq_zero_iff (a b : ℝ) {M : ℕ} (hba : b ≠ a) (m : Fin M) :
    omega a b m = 0 ↔ (m : ℕ) = 0 := by
  have hsub : b - a ≠ 0 := sub_ne_zero.mpr hba
  unfold omega
  constructor
  · intro h
    rcases div_eq_zero_iff.mp h with h1 | h1
    · rcases mul_eq_zero.mp h1 with h2 | h2
      · exact absurd h2 (mul_ne_zero two_ne_zero Real.pi_ne_zero)
      · exact_mod_cast h2
    · exact absurd h1 hsub
  · intro h
    have hm : ((m : ℕ) : ℝ) = 0 := by exact_mod_cast h
    rw [hm, mul_zero, zero_div]

lemma mem_sineIdx {a b : ℝ} {M : ℕ} {m : Fin M} (h : m ∈ sineIdx a b M) :
    omega a b m ≠ 0 := by
  unfold sineIdx at h
  exact (Finset.mem_filter.mp h).2

/-! ## C4: angular frequencies and the zero-frequency branch -/

/-- C4: each prior covariance builder computes `ω_m = 2π·m/(b−a)` and
branches to a distinct zero-frequency variant exactly at `m = 0`: the
cosine-block divisor is 2 at `ω = 0` and 4 at `ω ≠ 0` for Matérn-1/2, and
4 versus 8 for Matérn-3/2, the factor-of-two relation holding exactly. -/
theorem omega_def_and_zero_frequency_branch (a b : ℝ) {M : ℕ} (hba : b ≠ a)
    (m : Fin M) :
    omega a b m = 2 * Real.pi * m / (b - a)
    ∧ (omega a b m = 0 ↔ (m : ℕ) = 0)
    ∧ twoOrFour a b m = (if (m : ℕ) = 0 then 2 else 4)
    ∧ fourOrEight a b m = (if (m : ℕ) = 0 then 4 else 8)
    ∧ fourOrEight a b m = 2 * twoOrFour a b m := by
  have hiff := omega_eq_zero_iff a b hba m
  have h24 : twoOrFour a b m = (if (m : ℕ) = 0 then 2 else 4) := by
    unfold twoOrFour
    by_cases h : (m : ℕ) = 0
    · rw [if_pos (hiff.mpr h), if_pos h]
    · rw [if_neg (fun hc => h (hiff.mp hc)), if_neg h]
  have h48 : fourOrEight a b m = (if (m : ℕ) = 0 then 4 else 8) := by
    unfold fourOrEight
    by_cases h : (m : ℕ) = 0
    · rw [if_pos (hiff.mpr h), if_pos h]
    · rw [if_neg (fun hc => h (hiff.mp hc)), if_neg h]
  refine ⟨rfl, hiff, h24, h48, ?_⟩
  rw [h24, h48]
  by_cases h : (m : ℕ) = 0
  · rw [if_pos h, if_pos h]; norm_num
  · rw [if_neg h, if_neg h]; norm_num

/-- Witness for `omega_def_and_zero_frequency_branch` at `a = 0`, `b = 1`,
`M = 1`, `m = 0`. -/
theorem omega_def_and_zero_frequency_branch_witness :
    (1 : ℝ) ≠ 0 ∧ twoOrFour 0 1 (0 : Fin 1) = (if ((0 : Fin 1) : ℕ) = 0 then 2 else 4) :=
  ⟨one_ne_zero, (omega_def_and_zero_frequency_branch 0 1 one_ne_zero 0).2.2.1⟩

/-! ## C3: tail formulas outside the interval -/

/-- C3: outside `[a, b]` the cross-covariance builders substitute tail
formulas based on the distance to the nearest boundary: Matérn-1/2 uses
`exp(−|Δx|/ℓ)` for the cosine rows and exactly zero for the sine rows,
while Matérn-3/2 uses `(1+arg)·exp(−arg)` with `arg = √3·|Δx|/ℓ` for the
cosine rows and `Δx·exp(−arg)·ω_m` for the sine rows. -/
theorem Kuf_tail_formulas (a b ℓ : ℝ) {M : ℕ} (hab : a < b) (m : Fin M) (x : ℝ) :
    (x < a → Kuf_matern12_cos a b ℓ m x = Real.exp (-|x - a| / ℓ))
    ∧ (b < x → Kuf_matern12_cos a b ℓ m x = Real.exp (-|x - b| / ℓ))
    ∧ (x < a ∨ b < x → Kuf_matern12_sin a b m x = 0)
    ∧ (x < a → Kuf_matern32_cos a b ℓ m x
        = (1 + Real.sqrt 3 * |x - a| / ℓ) * Real.exp (-(Real.sqrt 3 * |x - a| / ℓ)))
    ∧ (b < x → Kuf_matern32_cos a b ℓ m x
        = (1 + Real.sqrt 3 * |x - b| / ℓ) * Real.exp (-(Real.sqrt 3 * |x - b| / ℓ)))
    ∧ (x < a → Kuf_matern32_sin a b ℓ m x
        = (x - a) * Real.exp (-(Real.sqrt 3 * |x - a| / ℓ)) * omega a b m)
    ∧ (b < x → Kuf_matern32_sin a b ℓ m x
        = (x - b) * Real.exp (-(Real.sqrt 3 * |x - b| / ℓ)) * omega a b m) := by
  refine ⟨fun hx => ?_, fun hx => ?_, fun hx => ?_, fun hx => ?_, fun hx => ?_,
    fun hx => ?_, fun hx => ?_⟩
  · have hnb : ¬ b < x := by linarith
    unfold Kuf_matern12_cos
    rw [if_neg hnb, if_pos hx]
  · unfold Kuf_matern12_cos
    rw [if_pos hx]
  · unfold Kuf_matern12_sin
    rw [if_pos hx]
  · have hnb : ¬ b < x := by linarith
    unfold Kuf_matern32_cos tail_cos32
    rw [if_neg hnb, if_pos hx]
  · unfold Kuf_matern32_cos tail_cos32
    rw [if_pos hx]
  · have hnb : ¬ b < x := by linarith
    unfold Kuf_matern32_sin tail_sin32
    rw [if_neg hnb, if_pos hx]
  · unfold Kuf_matern32_sin tail_sin32
    rw [if_pos hx]

/-- Witness for `Kuf_tail_formulas` at `a = 0`, `b = 1`, `ℓ = 1`,
`M = 1`, `m = 0`, `x = 2` (a point right of the interval). -/
theorem Kuf_tail_formulas_witness :
    (0 : ℝ) < 1
    ∧ Kuf_matern12_cos 0 1 1 (0 : Fin 1) 2 = Real.exp (-|(2 : ℝ) - 1| / 1) :=
  ⟨zero_lt_one, (Kuf_tail_formulas 0 1 1 zero_lt_one 0 2).2.1 one_lt_two⟩

/-! ## C6: inducing-variable count and sine-block size -/

/-- C6: `num_inducing = 2M − 1`, the shape descriptor is `(2M−1, 1, 1)`,
and the sine blocks are built over exactly `M − 1` nonzero frequencies
(the zero frequency is excluded), so that `M` cosine components plus the
sine components give `num_inducing`. -/
theorem num_inducing_shape_and_sine_count (u : FourierFeatures1D)
    (hba : u.b ≠ u.a) (hM : 1 ≤ u.M) :
    u.num_inducing = 2 * (u.M : ℤ) - 1
    ∧ u.shape = (u.num_inducing, 1, 1)
    ∧ (sineIdx u.a u.b u.M).card = u.M - 1
    ∧ (u.M : ℤ) + ((sineIdx u.a u.b u.M).card : ℤ) = u.num_inducing := by
  have hM0 : 0 < u.M := hM
  have hcard : (sineIdx u.a u.b u.M).card = u.M - 1 := by
    have h1 : sineIdx u.a u.b u.M
        = Finset.univ.filter (fun m : Fin u.M => m ≠ ⟨0, hM0⟩) := by
      unfold sineIdx
      refine Finset.filter_congr ?_
      intro m _
      simp [ne_eq, omega_eq_zero_iff u.a u.b hba, Fin.ext_iff]
    rw [h1, Finset.filter_ne', Finset.card_erase_of_mem (Finset.mem_univ _),
      Finset.card_univ, Fintype.card_fin]
  refine ⟨rfl, rfl, hcard, ?_⟩
  rw [hcard]
  unfold FourierFeatures1D.num_inducing
  omega

/-- Witness for `num_inducing_shape_and_sine_count` at the descriptor
`FourierFeatures1D(-0.5, 1.5, 2)` used in the notebook. -/
theorem num_inducing_shape_and_sine_count_witness :
    (FourierFeatures1D.mk (-0.5) 1.5 2).b ≠ (FourierFeatures1D.mk (-0.5) 1.5 2).a
    ∧ (FourierFeatures1D.mk (-0.5) 1.5 2).num_inducing
        = 2 * ((FourierFeatures1D.mk (-0.5) 1.5 2).M : ℤ) - 1 :=
  ⟨by norm_num, (num_inducing_shape_and_sine_count (FourierFeatures1D.mk (-0.5) 1.5 2)
    (by norm_num) (by norm_num)).1⟩

/-! ## C8: the whitened parameterization is rejected -/

/-- C8: with `whiten = true`, `prior_kl_vff`, `_conditional_fused` (both
the full-covariance and diagonal settings) and `_precompute` all return
the raised `NotImplementedError` instead of a result. -/
theorem whiten_raises_not_implemented {n N : ℕ}
    (Kuu : Matrix (Fin n) (Fin n) ℝ) (Kuf : Matrix (Fin n) (Fin N) ℝ)
    (Knn : Matrix (Fin N) (Fin N) ℝ) (knnDiag : Fin N → ℝ)
    (f q_mu : Matrix (Fin n) (Fin 1) ℝ) (q_sqrt : Matrix (Fin n) (Fin n) ℝ)
    (qs : QSqrtArg n) (foc : Bool) :
    conditionalFusedFull true foc Kuu Kuf Knn f qs = .error .notImplementedError
    ∧ conditionalFusedDiag true foc Kuu Kuf knnDiag f qs = .error .notImplementedError
    ∧ precompute true Kuu q_mu q_sqrt = .error .notImplementedError
    ∧ prior_kl_vff true q_mu q_sqrt Kuu = .error .notImplementedError := by
  refine ⟨?_, ?_, rfl, rfl⟩ <;> cases foc <;> rfl

/-! ## C9: shape errors for unsupported `q_sqrt` arguments -/

/-- C9 counterexample: a 2-D `q_sqrt` is non-`None` and is not the
supported single-latent 3-D case, yet `_conditional_fused` raises
`NotImplementedError`, not a `ValueError` naming the dimensionality. -/
theorem q_sqrt_2d_raises_not_implemented_not_value_error :
    @conditionalFusedFull 1 1 false false 1 1 1 1 (.q2 1)
      = .error .notImplementedError
    ∧ isValueError (@conditionalFusedFull 1 1 false false 1 1 1 1 (.q2 1)) = false :=
  ⟨rfl, rfl⟩

/-- C9 (amended): the fused conditional only supports a single latent
function with a 3-D square-root factor; a 2-D `q_sqrt` raises
`NotImplementedError`, a 3-D `q_sqrt` with leading dimension ≠ 1 fails an
assertion, and only a `q_sqrt` with neither 2 nor 3 dimensions raises a
`ValueError` reporting the actual number of dimensions. -/
theorem q_sqrt_shape_error_taxonomy {n N : ℕ}
    (Kuu : Matrix (Fin n) (Fin n) ℝ) (Kuf : Matrix (Fin n) (Fin N) ℝ)
    (Knn : Matrix (Fin N) (Fin N) ℝ) (f : Matrix (Fin n) (Fin 1) ℝ)
    (L : Matrix (Fin n) (Fin n) ℝ) (lead : ℕ)
    (mats : Fin lead → Matrix (Fin n) (Fin n) ℝ) (d : ℕ)
    (hlead : lead ≠ 1) (hd2 : d ≠ 2) (hd3 : d ≠ 3) :
    conditionalFusedFull false false Kuu Kuf Knn f (.q2 L)
      = .error .notImplementedError
    ∧ conditionalFusedFull false false Kuu Kuf Knn f (.q3 lead mats)
      = .error .assertionError
    ∧ conditionalFusedFull false false Kuu Kuf Knn f (.qother d)
      = .error (.valueError (String.append "Bad dimension for q_sqrt: " (toString d))) := by
  refine ⟨rfl, ?_, rfl⟩
  simp only [conditionalFusedFull]
  rw [dif_neg hlead]
  rfl

/-- Witness for `q_sqrt_shape_error_taxonomy` with `lead = 2`, `d = 5`. -/
theorem q_sqrt_shape_error_taxonomy_witness :
    ((2 : ℕ) ≠ 1 ∧ (5 : ℕ) ≠ 2 ∧ (5 : ℕ) ≠ 3)
    ∧ @conditionalFusedFull 1 1 false false 1 1 1 1 (.q3 2 (fun _ => 1))
        = .error .assertionError :=
  ⟨⟨by decide, by decide, by decide⟩,
    (q_sqrt_shape_error_taxonomy 1 1 1 1 1 2 (fun _ => 1) 5
      (by decide) (by decide) (by decide)).2.1⟩

/-! ## C10: the multi-latent assertion -/

/-- C10: a 3-D `q_sqrt` whose leading dimension is not 1 aborts with the
assertion failure (`assert q_sqrt.shape[0] == 1`), not the `ValueError`
used for other unsupported shapes; with leading dimension exactly 1 the
assertion never fires and the fused conditional returns its result. -/
theorem multi_latent_assertion_policy {n N : ℕ}
    (Kuu : Matrix (Fin n) (Fin n) ℝ) (Kuf : Matrix (Fin n) (Fin N) ℝ)
    (Knn : Matrix (Fin N) (Fin N) ℝ) (f : Matrix (Fin n) (Fin 1) ℝ)
    (lead : ℕ) (mats : Fin lead → Matrix (Fin n) (Fin n) ℝ)
    (mats1 : Fin 1 → Matrix (Fin n) (Fin n) ℝ) (hlead : lead ≠ 1) :
    conditionalFusedFull false false Kuu Kuf Knn f (.q3 lead mats)
      = .error .assertionError
    ∧ isValueError (conditionalFusedFull false false Kuu Kuf Knn f (.q3 lead mats))
      = false
    ∧ conditionalFusedFull false false Kuu Kuf Knn f (.q3 1 mats1)
      = .ok ((Kuu⁻¹ * Kuf)ᵀ * f,
          Knn - Kufᵀ * (Kuu⁻¹ * Kuf)
            + ((Kuu⁻¹ * Kuf)ᵀ * mats1 ⟨0, Nat.one_pos⟩)
              * ((Kuu⁻¹ * Kuf)ᵀ * mats1 ⟨0, Nat.one_pos⟩)ᵀ) := by
  have herr : conditionalFusedFull false false Kuu Kuf Knn f (.q3 lead mats)
      = .error .assertionError := by
    simp only [conditionalFusedFull]
    rw [dif_neg hlead]
    rfl
  refine ⟨herr, by rw [herr]; rfl, rfl⟩

/-- Witness for `multi_latent_assertion_policy` with `lead = 2`. -/
theorem multi_latent_assertion_policy_witness :
    (2 : ℕ) ≠ 1
    ∧ @conditionalFusedFull 1 1 false false 1 1 1 1 (.q3 2 (fun _ => 1))
        = .error .assertionError :=
  ⟨by decide, (multi_latent_assertion_policy 1 1 1 1 2 (fun _ => 1) (fun _ => 1)
    (by decide)).1⟩

/-! ## Positive definiteness of the structured prior covariance (C2) -/

lemma isHermitian_to_isSymm {ι : Type} {A : Matrix ι ι ℝ}
    (h : A.IsHermitian) : A.IsSymm := by
  have hct : Aᴴ = Aᵀ := by
    ext i j
    simp [Matrix.conjTranspose_apply]
  unfold Matrix.IsSymm
  rw [← hct]
  exact h

lemma rankOne_eq_conjTranspose_mul_self {ι : Type} [Fintype ι] (v : ι → ℝ) :
    rankOne v = (Matrix.row Unit v)ᴴ * Matrix.row Unit v := by
  ext i j
  simp [rankOne, Matrix.mul_apply, Matrix.row_apply, Matrix.conjTranspose_apply]

lemma rankOne_posSemidef {ι : Type} [Fintype ι] (v : ι → ℝ) :
    (rankOne v).PosSemidef := by
  rw [rankOne_eq_conjTranspose_mul_self]
  exact Matrix.posSemidef_conjTranspose_mul_self _

lemma posDef_fromBlocks_zero {ι κ : Type} [Fintype ι] [Fintype κ]
    [DecidableEq ι] [DecidableEq κ]
    {A : Matrix ι ι ℝ} {D : Matrix κ κ ℝ} (hA : A.PosDef) (hD : D.PosDef) :
    (Matrix.fromBlocks A 0 0 D).PosDef := by
  constructor
  · exact Matrix.IsHermitian.fromBlocks hA.1 (by simp) hD.1
  · intro x hx
    obtain ⟨x1, x2, rfl⟩ : ∃ u v, x = Sum.elim u v :=
      ⟨x ∘ Sum.inl, x ∘ Sum.inr, funext fun i => by cases i <;> rfl⟩
    rw [star_trivial, Matrix.fromBlocks_mulVec]
    simp only [Sum.elim_comp_inl, Sum.elim_comp_inr, Matrix.zero_mulVec,
      add_zero, zero_add]
    rw [Matrix.sum_elim_dotProduct_sum_elim]
    have hsplit : x1 ≠ 0 ∨ x2 ≠ 0 := by
      by_contra hc
      push_neg at hc
      apply hx
      rw [hc.1, hc.2]
      funext i
      cases i <;> rfl
    have hr0 := hD.posSemidef.2 x2
    have hl0 := hA.posSemidef.2 x1
    rw [star_trivial] at hr0 hl0
    rcases hsplit with h | h
    · have hpos := hA.2 x1 h
      rw [star_trivial] at hpos
      linarith
    · have hpos := hD.2 x2 h
      rw [star_trivial] at hpos
      linarith

lemma lamb12_pos {ℓ : ℝ} (hl : 0 < ℓ) : 0 < lamb12 ℓ := by
  unfold lamb12
  positivity

lemma lamb32_pos {ℓ : ℝ} (hl : 0 < ℓ) : 0 < lamb32 ℓ := by
  unfold lamb32
  have h3 : (0 : ℝ) < Real.sqrt 3 := Real.sqrt_pos.mpr (by norm_num)
  positivity

lemma twoOrFour_pos (a b : ℝ) {M : ℕ} (m : Fin M) : 0 < twoOrFour a b m := by
  unfold twoOrFour
  split <;> norm_num

lemma fourOrEight_pos (a b : ℝ) {M : ℕ} (m : Fin M) : 0 < fourOrEight a b m := by
  unfold fourOrEight
  split <;> norm_num

lemma dCos12_pos {a b ℓ σ2 : ℝ} (hab : a < b) (hl : 0 < ℓ) (hv : 0 < σ2)
    {M : ℕ} (m : Fin M) : 0 < dCos12 a b ℓ σ2 m := by
  have hlam := lamb12_pos hl
  have hba : 0 < b - a := sub_pos.mpr hab
  have hsum : 0 < lamb12 ℓ ^ 2 + omega a b m ^ 2 :=
    add_pos_of_pos_of_nonneg (pow_pos hlam 2) (sq_nonneg _)
  exact div_pos (div_pos (div_pos (mul_pos hba hsum) hlam) hv) (twoOrFour_pos a b m)

lemma dSin12_pos {a b ℓ σ2 : ℝ} (hab : a < b) (hl : 0 < ℓ) (hv : 0 < σ2)
    {M : ℕ} (m : Fin M) : 0 < dSin12 a b ℓ σ2 m := by
  have hlam := lamb12_pos hl
  have hba : 0 < b - a := sub_pos.mpr hab
  have hsum : 0 < lamb12 ℓ ^ 2 + omega a b m ^ 2 :=
    add_pos_of_pos_of_nonneg (pow_pos hlam 2) (sq_nonneg _)
  have h4 : (0 : ℝ) < 4 := by norm_num
  exact div_pos (div_pos (div_pos (mul_pos hba hsum) hlam) hv) h4

lemma dCos32_pos {a b ℓ σ2 : ℝ} (hab : a < b) (hl : 0 < ℓ) (hv : 0 < σ2)
    {M : ℕ} (m : Fin M) : 0 < dCos32 a b ℓ σ2 m := by
  have hlam := lamb32_pos hl
  have hba : 0 < b - a := sub_pos.mpr hab
  have hsum : 0 < lamb32 ℓ ^ 2 + omega a b m ^ 2 :=
    add_pos_of_pos_of_nonneg (pow_pos hlam 2) (sq_nonneg _)
  exact div_pos (div_pos (div_pos (mul_pos hba (pow_pos hsum 2)) (pow_pos hlam 3)) hv)
    (fourOrEight_pos a b m)

lemma dSin32_pos {a b ℓ σ2 : ℝ} (hab : a < b) (hl : 0 < ℓ) (hv : 0 < σ2)
    {M : ℕ} (m : Fin M) : 0 < dSin32 a b ℓ σ2 m := by
  have hlam := lamb32_pos hl
  have hba : 0 < b - a := sub_pos.mpr hab
  have hsum : 0 < lamb32 ℓ ^ 2 + omega a b m ^ 2 :=
    add_pos_of_pos_of_nonneg (pow_pos hlam 2) (sq_nonneg _)
  have h8 : (0 : ℝ) < 8 := by norm_num
  exact div_pos (div_pos (div_pos (mul_pos hba (pow_pos hsum 2)) (pow_pos hlam 3)) hv) h8

lemma cosBlock12_posDef {a b ℓ σ2 : ℝ} (hab : a < b) (hl : 0 < ℓ) (hv : 0 < σ2)
    (M : ℕ) : (cosBlock12 a b ℓ σ2 M).PosDef :=
  (Matrix.PosDef.diagonal (fun m => dCos12_pos hab hl hv m)).add_posSemidef
    (rankOne_posSemidef _)

lemma sinBlock12_posDef {a b ℓ σ2 : ℝ} (hab : a < b) (hl : 0 < ℓ) (hv : 0 < σ2)
    (M : ℕ) : (sinBlock12 a b ℓ σ2 M).PosDef :=
  Matrix.PosDef.diagonal (fun m => dSin12_pos hab hl hv m.1)

lemma cosBlock32_posDef {a b ℓ σ2 : ℝ} (hab : a < b) (hl : 0 < ℓ) (hv : 0 < σ2)
    (M : ℕ) : (cosBlock32 a b ℓ σ2 M).PosDef :=
  (Matrix.PosDef.diagonal (fun m => dCos32_pos hab hl hv m)).add_posSemidef
    (rankOne_posSemidef _)

lemma sinBlock32_posDef {a b ℓ σ2 : ℝ} (hab : a < b) (hl : 0 < ℓ) (hv : 0 < σ2)
    (M : ℕ) : (sinBlock32 a b ℓ σ2 M).PosDef := by
  unfold sinBlock32
  have h1 : (Matrix.diagonal
      (fun m : { m : Fin M // m ∈ sineIdx a b M } => dSin32 a b ℓ σ2 m.1)).PosDef :=
    Matrix.PosDef.diagonal (fun m => dSin32_pos hab hl hv m.1)
  have h2 := rankOne_posSemidef
    (fun m : { m : Fin M // m ∈ sineIdx a b M } => vSin32 a b ℓ σ2 m.1)
  exact h1.add_posSemidef h2

/-- C2: for every interval with `a < b`, every `M ≥ 1`, and strictly
positive lengthscale and variance, every diagonal entry `d_cos` and
`d_sin` built by `Kuu_matern12_fourierfeatures1d` and
`Kuu_matern32_fourierfeatures1d` is strictly positive, and the dense
materialization of each returned block-diagonal operator is symmetric and
positive-definite (hence all its eigenvalues are positive). -/
theorem Kuu_dense_symm_posDef (a b ℓ σ2 : ℝ) (M : ℕ)
    (hab : a < b) (hM : 1 ≤ M) (hl : 0 < ℓ) (hv : 0 < σ2) :
    (∀ m : Fin M, 0 < dCos12 a b ℓ σ2 m)
    ∧ (∀ m : Fin M, 0 < dSin12 a b ℓ σ2 m)
    ∧ (∀ m : Fin M, 0 < dCos32 a b ℓ σ2 m)
    ∧ (∀ m : Fin M, 0 < dSin32 a b ℓ σ2 m)
    ∧ (Kuu_matern12_dense a b ℓ σ2 M).IsSymm
    ∧ (Kuu_matern12_dense a b ℓ σ2 M).PosDef
    ∧ (Kuu_matern32_dense a b ℓ σ2 M).IsSymm
    ∧ (Kuu_matern32_dense a b ℓ σ2 M).PosDef := by
  have h12 : (Kuu_matern12_dense a b ℓ σ2 M).PosDef :=
    posDef_fromBlocks_zero (cosBlock12_posDef hab hl hv M)
      (sinBlock12_posDef hab hl hv M)
  have h32 : (Kuu_matern32_dense a b ℓ σ2 M).PosDef :=
    posDef_fromBlocks_zero (cosBlock32_posDef hab hl hv M)
      (sinBlock32_posDef hab hl hv M)
  exact ⟨fun m => dCos12_pos hab hl hv m, fun m => dSin12_pos hab hl hv m,
    fun m => dCos32_pos hab hl hv m, fun m => dSin32_pos hab hl hv m,
    isHermitian_to_isSymm h12.1, h12, isHermitian_to_isSymm h32.1, h32⟩

/-- Witness for `Kuu_dense_symm_posDef` at `a = 0`, `b = 1`, `ℓ = 1`,
`σ² = 1`, `M = 1`. -/
theorem Kuu_dense_symm_posDef_witness :
    ((0 : ℝ) < 1 ∧ (1 : ℕ) ≤ 1)
    ∧ (Kuu_matern12_dense 0 1 1 1 1).PosDef
    ∧ (Kuu_matern32_dense 0 1 1 1 1).PosDef :=
  ⟨⟨zero_lt_one, le_refl 1⟩,
    (Kuu_dense_symm_posDef 0 1 1 1 1 zero_lt_one (le_refl 1) zero_lt_one
      zero_lt_one).2.2.2.2.2.1,
    (Kuu_dense_symm_posDef 0 1 1 1 1 zero_lt_one (le_refl 1) zero_lt_one
      zero_lt_one).2.2.2.2.2.2.2⟩

/-! ## C7: block structure of the prior covariance operators -/

lemma vSin32_ne_zero {a b ℓ σ2 : ℝ} (hl : 0 < ℓ) (hv : 0 < σ2) {M : ℕ}
    {m : Fin M} (hm : omega a b m ≠ 0) : vSin32 a b ℓ σ2 m ≠ 0 := by
  unfold vSin32
  have hlam : lamb32 ℓ ≠ 0 := (lamb32_pos hl).ne'
  have hs : Real.sqrt σ2 ≠ 0 := (Real.sqrt_pos.mpr hv).ne'
  exact div_ne_zero (div_ne_zero hm hlam) hs

/-- C7 counterexample: at `a = 0`, `b = 1`, `ℓ = 1`, `σ² = 1`, `M = 2`,
the off-diagonal cosine-block entry of BOTH builders equals
`v_cos · v_cos = 1 ≠ 0`: the rank-one correction shared across all cosine
components is present for both kernel families, not only for the one
family the claim singles out. -/
theorem Kuu_cos_rank_one_in_both_families :
    Kuu_matern12_dense 0 1 1 1 2 (.inl 0) (.inl 1) ≠ 0
    ∧ Kuu_matern32_dense 0 1 1 1 2 (.inl 0) (.inl 1) ≠ 0 := by
  have h01 : (0 : Fin 2) ≠ 1 := by decide
  constructor
  · unfold Kuu_matern12_dense
    rw [Matrix.fromBlocks_apply₁₁]
    unfold cosBlock12
    rw [Matrix.add_apply, Matrix.diagonal_apply, if_neg h01]
    show 0 + vCos12 1 * vCos12 1 ≠ 0
    unfold vCos12
    rw [Real.sqrt_one]
    norm_num
  · unfold Kuu_matern32_dense
    rw [Matrix.fromBlocks_apply₁₁]
    unfold cosBlock32
    rw [Matrix.add_apply, Matrix.diagonal_apply, if_neg h01]
    show 0 + vCos32 1 * vCos32 1 ≠ 0
    unfold vCos32
    rw [Real.sqrt_one]
    norm_num

/-- C7 (amended): each Kuu builder returns a block-diagonal composite
whose cosine block is diagonal-plus-rank-one for BOTH kernel families
(the shared rank-one cosine correction `v_cos v_cosᵀ` is present in
both); the sine block is purely diagonal for Matérn-1/2 and
diagonal-plus-rank-one for Matérn-3/2, so the sine-block rank-one
correction is the one present only for the Matérn-3/2 family (its
off-diagonal sine entries are nonzero). -/
theorem Kuu_block_structure (a b ℓ σ2 : ℝ) (M : ℕ) (hl : 0 < ℓ) (hv : 0 < σ2) :
    (∀ i j : Fin M, Kuu_matern12_dense a b ℓ σ2 M (.inl i) (.inl j)
        = (if i = j then dCos12 a b ℓ σ2 i else 0) + vCos12 σ2 * vCos12 σ2)
    ∧ (∀ i j : { m : Fin M // m ∈ sineIdx a b M },
        Kuu_matern12_dense a b ℓ σ2 M (.inr i) (.inr j)
          = (if i = j then dSin12 a b ℓ σ2 i.1 else 0))
    ∧ (∀ (i : Fin M) (j : { m : Fin M // m ∈ sineIdx a b M }),
        Kuu_matern12_dense a b ℓ σ2 M (.inl i) (.inr j) = 0
        ∧ Kuu_matern12_dense a b ℓ σ2 M (.inr j) (.inl i) = 0
        ∧ Kuu_matern32_dense a b ℓ σ2 M (.inl i) (.inr j) = 0
        ∧ Kuu_matern32_dense a b ℓ σ2 M (.inr j) (.inl i) = 0)
    ∧ (∀ i j : Fin M, Kuu_matern32_dense a b ℓ σ2 M (.inl i) (.inl j)
        = (if i = j then dCos32 a b ℓ σ2 i else 0) + vCos32 σ2 * vCos32 σ2)
    ∧ (∀ i j : { m : Fin M // m ∈ sineIdx a b M },
        Kuu_matern32_dense a b ℓ σ2 M (.inr i) (.inr j)
          = (if i = j then dSin32 a b ℓ σ2 i.1 else 0)
            + vSin32 a b ℓ σ2 i.1 * vSin32 a b ℓ σ2 j.1)
    ∧ (∀ i j : { m : Fin M // m ∈ sineIdx a b M }, i ≠ j →
        Kuu_matern32_dense a b ℓ σ2 M (.inr i) (.inr j) ≠ 0) := by
  have h22 : ∀ i j : { m : Fin M // m ∈ sineIdx a b M },
      Kuu_matern32_dense a b ℓ σ2 M (.inr i) (.inr j)
        = (if i = j then dSin32 a b ℓ σ2 i.1 else 0)
          + vSin32 a b ℓ σ2 i.1 * vSin32 a b ℓ σ2 j.1 := by
    intro i j
    unfold Kuu_matern32_dense
    rw [Matrix.fromBlocks_apply₂₂]
    unfold sinBlock32
    rw [Matrix.add_apply, Matrix.diagonal_apply]
    rfl
  refine ⟨fun i j => ?_, fun i j => ?_, fun i j => ⟨?_, ?_, ?_, ?_⟩,
    fun i j => ?_, h22, fun i j hij => ?_⟩
  · unfold Kuu_matern12_dense
    rw [Matrix.fromBlocks_apply₁₁]
    unfold cosBlock12
    rw [Matrix.add_apply, Matrix.diagonal_apply]
    rfl
  · unfold Kuu_matern12_dense
    rw [Matrix.fromBlocks_apply₂₂]
    unfold sinBlock12
    rw [Matrix.diagonal_apply]
  · unfold Kuu_matern12_dense
    rw [Matrix.fromBlocks_apply₁₂]
    rfl
  · unfold Kuu_matern12_dense
    rw [Matrix.fromBlocks_apply₂₁]
    rfl
  · unfold Kuu_matern32_dense
    rw [Matrix.fromBlocks_apply₁₂]
    rfl
  · unfold Kuu_matern32_dense
    rw [Matrix.fromBlocks_apply₂₁]
    rfl
  · unfold Kuu_matern32_dense
    rw [Matrix.fromBlocks_apply₁₁]
    unfold cosBlock32
    rw [Matrix.add_apply, Matrix.diagonal_apply]
    rfl
  · rw [h22 i j, if_neg hij, zero_add]
    exact mul_ne_zero (vSin32_ne_zero hl hv (mem_sineIdx i.2))
      (vSin32_ne_zero hl hv (mem_sineIdx j.2))

/-- Witness for `Kuu_block_structure` at `a = 0`, `b = 1`, `ℓ = 1`,
`σ² = 1`, `M = 1`, cosine entry `(0, 0)`. -/
theorem Kuu_block_structure_witness :
    ((0 : ℝ) < 1)
    ∧ Kuu_matern12_dense 0 1 1 1 1 (.inl 0) (.inl 0)
        = (if (0 : Fin 1) = 0 then dCos12 0 1 1 1 (0 : Fin 1) else 0)
          + vCos12 1 * vCos12 1 :=
  ⟨zero_lt_one, (Kuu_block_structure 0 1 1 1 1 zero_lt_one zero_lt_one).1 0 0⟩

/-! ## C5: correctness of `gauss_kl_vff` -/

lemma lowerTri_idem {n : ℕ} (A : Matrix (Fin n) (Fin n) ℝ) :
    lowerTri (lowerTri A) = lowerTri A := by
  funext i j
  unfold lowerTri
  by_cases h : j ≤ i
  · rw [if_pos h, if_pos h]
  · rw [if_neg h, if_neg h]

lemma sum_mul_eq_trace {ι κ : Type} [Fintype ι] [Fintype κ]
    (A B : Matrix ι κ ℝ) :
    (∑ i, ∑ j, A i j * B i j) = Matrix.trace (Aᵀ * B) := by
  unfold Matrix.trace
  rw [Finset.sum_comm]
  refine Finset.sum_congr rfl fun j _ => ?_
  simp [Matrix.diag, Matrix.mul_apply]

lemma lowerTri_blockTriangular {n : ℕ} (A : Matrix (Fin n) (Fin n) ℝ) :
    (lowerTri A).BlockTriangular OrderDual.toDual := by
  intro i j h
  have hij : i < j := OrderDual.toDual_lt_toDual.mp h
  unfold lowerTri
  rw [if_neg (not_le.mpr hij)]

/-- C5: in `gauss_kl_vff` the posterior square root is first forced
lower-triangular (the result only depends on the lower triangle), the
double-sum trace term equals the naive `tr(Lᵀ K⁻¹ L) = tr(K⁻¹ L Lᵀ)`, and
the combination yields the standard Gaussian KL divergence from
`N(q_mu, L Lᵀ)` to `N(0, K)` stated in its docstring. -/
theorem gauss_kl_vff_correct {n : ℕ} (q_mu : Matrix (Fin n) (Fin 1) ℝ)
    (q_sqrt K : Matrix (Fin n) (Fin n) ℝ)
    (hdet : 0 < K.det) (hdiag : ∀ i, q_sqrt i i ≠ 0) :
    gauss_kl_vff q_mu q_sqrt K = gauss_kl_vff q_mu (lowerTri q_sqrt) K
    ∧ (∑ i, ∑ j, lowerTri q_sqrt i j * (K⁻¹ * lowerTri q_sqrt) i j)
        = Matrix.trace ((lowerTri q_sqrt)ᵀ * (K⁻¹ * lowerTri q_sqrt))
    ∧ (∑ i, ∑ j, lowerTri q_sqrt i j * (K⁻¹ * lowerTri q_sqrt) i j)
        = Matrix.trace (K⁻¹ * (lowerTri q_sqrt * (lowerTri q_sqrt)ᵀ))
    ∧ gauss_kl_vff q_mu q_sqrt K
        = standardGaussianKL q_mu (lowerTri q_sqrt * (lowerTri q_sqrt)ᵀ) K := by
  have htr1 := sum_mul_eq_trace (lowerTri q_sqrt) (K⁻¹ * lowerTri q_sqrt)
  have htr2 : Matrix.trace ((lowerTri q_sqrt)ᵀ * (K⁻¹ * lowerTri q_sqrt))
      = Matrix.trace (K⁻¹ * (lowerTri q_sqrt * (lowerTri q_sqrt)ᵀ)) := by
    rw [Matrix.trace_mul_comm, Matrix.mul_assoc]
  have hdd : ∀ i, lowerTri q_sqrt i i = q_sqrt i i := fun i => if_pos le_rfl
  have hLdet : (lowerTri q_sqrt).det = ∏ i, lowerTri q_sqrt i i :=
    Matrix.det_of_lowerTriangular _ (lowerTri_blockTriangular q_sqrt)
  have hlog : (∑ i, Real.log (lowerTri q_sqrt i i ^ 2))
      = Real.log ((lowerTri q_sqrt * (lowerTri q_sqrt)ᵀ).det) := by
    rw [Matrix.det_mul, Matrix.det_transpose, ← sq, hLdet, ← Finset.prod_pow]
    exact (Real.log_prod _ _ (fun i _ =>
      pow_ne_zero 2 (by rw [hdd i]; exact hdiag i))).symm
  have hmah : q_muᵀ * (K⁻¹ * q_mu) = q_muᵀ * K⁻¹ * q_mu :=
    (Matrix.mul_assoc _ _ _).symm
  refine ⟨?_, htr1, htr1.trans htr2, ?_⟩
  · simp only [gauss_kl_vff]
    rw [lowerTri_idem]
  · simp only [gauss_kl_vff, standardGaussianKL]
    rw [htr1, htr2, hmah, abs_of_pos hdet, hlog, one_mul]

/-- Witness for `gauss_kl_vff_correct` at `n = 1`, `q_mu = 0`,
`q_sqrt = 1`, `K = 1`. -/
theorem gauss_kl_vff_correct_witness :
    0 < (1 : Matrix (Fin 1) (Fin 1) ℝ).det
    ∧ gauss_kl_vff (0 : Matrix (Fin 1) (Fin 1) ℝ) 1 1
        = gauss_kl_vff (0 : Matrix (Fin 1) (Fin 1) ℝ)
            (lowerTri (1 : Matrix (Fin 1) (Fin 1) ℝ)) 1 :=
  ⟨by simp, (gauss_kl_vff_correct 0 1 1 (by simp)
    (fun i => by simp [Matrix.one_apply])).1⟩

/-! ## C1: the fused and precompute paths agree with each other and with
the generic conditional -/

lemma sum_mul_eq_diag {n N : ℕ} (P Q : Matrix (Fin n) (Fin N) ℝ) (j : Fin N) :
    (∑ i, P i j * Q i j) = (Pᵀ * Q) j j := by
  rw [Matrix.mul_apply]
  rfl

lemma sum_sq_eq_diag {N n : ℕ} (R : Matrix (Fin N) (Fin n) ℝ) (j : Fin N) :
    (∑ k, R j k ^ 2) = (R * Rᵀ) j j := by
  rw [Matrix.mul_apply]
  refine Finset.sum_congr rfl fun k _ => ?_
  rw [sq]
  rfl

/-- C1: for every symmetric prior covariance `Kuu` (as produced by the
`Kuu` builders), cross-covariance, prior variances, variational mean and
single-latent 3-D square-root factor, the fused conditional
(`_conditional_fused`) and the precompute-then-reuse path (`_precompute`
followed by `_conditional_with_precompute`) return the same posterior
mean and variance, in both the full-covariance and diagonal-only
settings, and both equal the generic conditional computation (exact
equality in real arithmetic, the idealization of floating-point
tolerance). -/
theorem fused_eq_precompute_eq_generic {n N : ℕ}
    (Kuu : Matrix (Fin n) (Fin n) ℝ) (Kuf : Matrix (Fin n) (Fin N) ℝ)
    (Knn : Matrix (Fin N) (Fin N) ℝ) (knnDiag : Fin N → ℝ)
    (f : Matrix (Fin n) (Fin 1) ℝ) (L : Matrix (Fin n) (Fin n) ℝ)
    (hsymm : Kuu.IsSymm) :
    conditionalFusedFull false false Kuu Kuf Knn f (.q3 1 (fun _ => L))
      = (precompute false Kuu f L).bind
          (fun c => conditionalWithPrecomputeFull false c.1 c.2 Kuf Knn)
    ∧ conditionalFusedDiag false false Kuu Kuf knnDiag f (.q3 1 (fun _ => L))
      = (precompute false Kuu f L).bind
          (fun c => conditionalWithPrecomputeDiag false c.1 c.2 Kuf knnDiag)
    ∧ conditionalFusedFull false false Kuu Kuf Knn f (.q3 1 (fun _ => L))
      = .ok (genericMean Kuu Kuf f, genericVarFull Kuu Kuf Knn L)
    ∧ conditionalFusedDiag false false Kuu Kuf knnDiag f (.q3 1 (fun _ => L))
      = .ok (genericMean Kuu Kuf f, genericVarDiag Kuu Kuf knnDiag L) := by
  have hKinv : (Kuu⁻¹)ᵀ = Kuu⁻¹ := by
    rw [Matrix.transpose_nonsing_inv, hsymm.eq]
  have hmean : (Kuu⁻¹ * Kuf)ᵀ * f = Kufᵀ * (Kuu⁻¹ * f) := by
    rw [Matrix.transpose_mul, hKinv, Matrix.mul_assoc]
  have hmeang : (Kuu⁻¹ * Kuf)ᵀ * f = genericMean Kuu Kuf f := by
    unfold genericMean
    rw [Matrix.transpose_mul, hKinv]
  have hATL : ((Kuu⁻¹ * Kuf)ᵀ * L) * ((Kuu⁻¹ * Kuf)ᵀ * L)ᵀ
      = Kufᵀ * (Kuu⁻¹ * (L * (Lᵀ * (Kuu⁻¹ * Kuf)))) := by
    simp only [Matrix.transpose_mul, Matrix.transpose_transpose, hKinv,
      Matrix.mul_assoc]
  have hQ : Kufᵀ * ((Kuu⁻¹ - (Kuu⁻¹ * L) * (Kuu⁻¹ * L)ᵀ) * Kuf)
      = Kufᵀ * (Kuu⁻¹ * Kuf)
        - Kufᵀ * (Kuu⁻¹ * (L * (Lᵀ * (Kuu⁻¹ * Kuf)))) := by
    rw [Matrix.sub_mul, Matrix.mul_sub]
    congr 1
    simp only [Matrix.transpose_mul, Matrix.transpose_transpose, hKinv,
      Matrix.mul_assoc]
  have hvarfull : Knn - Kufᵀ * (Kuu⁻¹ * Kuf)
        + ((Kuu⁻¹ * Kuf)ᵀ * L) * ((Kuu⁻¹ * Kuf)ᵀ * L)ᵀ
      = Knn - Kufᵀ * ((Kuu⁻¹ - (Kuu⁻¹ * L) * (Kuu⁻¹ * L)ᵀ) * Kuf) := by
    rw [hQ, hATL]
    abel
  have hvargen : Knn - Kufᵀ * (Kuu⁻¹ * Kuf)
        + ((Kuu⁻¹ * Kuf)ᵀ * L) * ((Kuu⁻¹ * Kuf)ᵀ * L)ᵀ
      = genericVarFull Kuu Kuf Knn L := by
    unfold genericVarFull
    rw [hATL]
  have hdiagPre : ∀ j : Fin N,
      knnDiag j - (∑ i, Kuf i j * (Kuu⁻¹ * Kuf) i j)
          + (∑ k, ((Kuu⁻¹ * Kuf)ᵀ * L) j k ^ 2)
        = knnDiag j
          - (∑ i, Kuf i j * ((Kuu⁻¹ - (Kuu⁻¹ * L) * (Kuu⁻¹ * L)ᵀ) * Kuf) i j) := by
    intro j
    rw [sum_mul_eq_diag, sum_mul_eq_diag, sum_sq_eq_diag]
    have hjj := congrFun (congrFun hQ j) j
    rw [Matrix.sub_apply] at hjj
    have hjj2 := congrFun (congrFun hATL j) j
    linarith [hjj, hjj2]
  have hdiagGen : ∀ j : Fin N,
      knnDiag j - (∑ i, Kuf i j * (Kuu⁻¹ * Kuf) i j)
          + (∑ k, ((Kuu⁻¹ * Kuf)ᵀ * L) j k ^ 2)
        = genericVarDiag Kuu Kuf knnDiag L j := by
    intro j
    unfold genericVarDiag
    rw [sum_mul_eq_diag, sum_sq_eq_diag]
    have hjj2 := congrFun (congrFun hATL j) j
    linarith [hjj2]
  refine ⟨?_, ?_, ?_, ?_⟩
  · exact congrArg Except.ok ((Prod.mk.injEq _ _ _ _).mpr ⟨hmean, hvarfull⟩)
  · exact congrArg Except.ok ((Prod.mk.injEq _ _ _ _).mpr
      ⟨hmean, funext hdiagPre⟩)
  · exact congrArg Except.ok ((Prod.mk.injEq _ _ _ _).mpr ⟨hmeang, hvargen⟩)
  · exact congrArg Except.ok ((Prod.mk.injEq _ _ _ _).mpr
      ⟨hmeang, funext hdiagGen⟩)

/-- Witness for `fused_eq_precompute_eq_generic` at `n = N = 1` with
`Kuu = Kuf = Knn = f = L = 1`. -/
theorem fused_eq_precompute_eq_generic_witness :
    (1 : Matrix (Fin 1) (Fin 1) ℝ).IsSymm
    ∧ @conditionalFusedFull 1 1 false false 1 1 1 1 (.q3 1 (fun _ => 1))
      = (precompute false (1 : Matrix (Fin 1) (Fin 1) ℝ) 1 1).bind
          (fun c => conditionalWithPrecomputeFull false c.1 c.2 1 1) :=
  ⟨Matrix.isSymm_one,
    (fused_eq_precompute_eq_generic 1 1 1 (fun _ => 1) 1 1 Matrix.isSymm_one).1⟩

end VFF
